import Mathlib

/-!
Shallow embedding of the `notes` application's core: the encrypted vault
storage engine (`src/services/crypto.ts`, `src/services/notesDb.ts`) and the
ranked fuzzy search engine (`src/hooks/useNotesSearch.ts`, `src/utils/tags.ts`).

JavaScript strings are modelled as Lean `String`s (sequences of characters);
JavaScript numbers used as ids/timestamps are modelled as `Int`; the WebCrypto
AEAD primitives, which are external to the repository, are modelled
symbolically (a ciphertext remembers the derived key, the nonce and the
plaintext it was built from, and decryption succeeds exactly when the
re-derived key and the stored nonce match).
-/

namespace Notes

/-! ### JavaScript string primitives -/

/-- The character class matched by `\s` in a JavaScript regular expression. -/
def isJsWhitespace (c : Char) : Bool :=
  c = ' ' || c = '\t' || c = '\n' || c = '\r' ||
  c = '\x0b' || c = '\x0c' || c = '\u00A0' || c = '\u1680' ||
  ('\u2000' ≤ c && c ≤ '\u200A') || c = '\u2028' || c = '\u2029' ||
  c = '\u202F' || c = '\u205F' || c = '\u3000' || c = '\uFEFF'

/-- JavaScript line terminators (the characters `.` does not match). -/
def isLineTerminator (c : Char) : Bool :=
  c = '\n' || c = '\r' || c = '\u2028' || c = '\u2029'

/-- Helper for `replace(/\s+/g, " ")`: the flag records whether the previous
character was whitespace (so a run contributes a single space). -/
def collapseWsAux : Bool → List Char → List Char
  | _, [] => []
  | prevWs, c :: cs =>
    if isJsWhitespace c then
      if prevWs then collapseWsAux true cs else ' ' :: collapseWsAux true cs
    else c :: collapseWsAux false cs

/-- Embeds `value.replace(/\s+/g, " ")`: every maximal whitespace run becomes one space. -/
def collapseWs (l : List Char) : List Char := collapseWsAux false l

/-- Embeds `String.prototype.trim` on a character list. -/
def jsTrimList (l : List Char) : List Char :=
  ((l.dropWhile isJsWhitespace).reverse.dropWhile isJsWhitespace).reverse

/-- Embeds `value.toLowerCase()`, restricted to ASCII case mapping in this model. -/
def jsToLower (s : String) : String := ⟨s.data.map Char.toLower⟩

/-- Embeds `useNotesSearch.ts` line 5: `value.toLowerCase().replace(/\s+/g, " ").trim()`. -/
def normalizeSearchText (s : String) : String :=
  ⟨jsTrimList (collapseWs (jsToLower s).data)⟩

/-- Embeds `utils/tags.ts`: `value.trim().replace(/\s+/g, " ")`. -/
def normalizeTag (value : String) : String :=
  ⟨collapseWs (jsTrimList value.data)⟩

/-- Embeds `utils/tags.ts`: `normalizeTag(value).toLowerCase()`. -/
def tagKey (value : String) : String := jsToLower (normalizeTag value)

/-- Embeds `Array.prototype.join(sep)`. -/
def joinWith (sep : String) : List String → String
  | [] => ""
  | [s] => s
  | s :: rest => s ++ sep ++ joinWith sep rest

/-- Embeds `String.prototype.split(" ")`: split at every single space, keeping empty
segments. The accumulator holds the current segment reversed. -/
def splitSpaceAux (current : List Char) : List Char → List String
  | [] => [⟨current.reverse⟩]
  | c :: cs =>
    if c = ' ' then ⟨current.reverse⟩ :: splitSpaceAux [] cs
    else splitSpaceAux (c :: current) cs

def splitSpace (l : List Char) : List String := splitSpaceAux [] l

/-! ### Editor content blocks and text extraction (`useNotesSearch.ts` 8-41)

The opaque BlockNote `content` value is modelled by the exact shape the
extraction walk distinguishes: inline items that are strings, objects with an
optional string `text` field and an optional nested `content` array, or
anything else (skipped); blocks with optional `content`/`children` arrays, or
non-objects (skipped). -/

inductive InlineNode where
  | str (s : String)
  | node (text : Option String) (content : Option (List InlineNode))
  | other

inductive Block where
  | mk (content : Option (List InlineNode)) (children : Option (List Block))
  | other

mutual
/-- Embeds `collectInlineText` restricted to one item: the strings it pushes, in order. -/
def inlineTexts : InlineNode → List String
  | .str s => [s]
  | .node t c =>
    (match t with | some s => [s] | none => []) ++
    (match c with | some items => inlineListTexts items | none => [])
  | .other => []

def inlineListTexts : List InlineNode → List String
  | [] => []
  | x :: xs => inlineTexts x ++ inlineListTexts xs
end

mutual
/-- Embeds `walkBlocks` restricted to one block: inline texts first, then children. -/
def blockTexts : Block → List String
  | .mk c ch =>
    (match c with | some items => inlineListTexts items | none => []) ++
    (match ch with | some bs => blockListTexts bs | none => [])
  | .other => []

def blockListTexts : List Block → List String
  | [] => []
  | b :: bs => blockTexts b ++ blockListTexts bs
end

/-- Embeds `extractTextFromBlocks`: all collected strings joined with spaces;
an absent `content` yields the empty string. -/
def extractTextFromBlocks : Option (List Block) → String
  | none => ""
  | some bs => joinWith " " (blockListTexts bs)

/-! ### Fuzzy scoring (`useNotesSearch.ts` 43-68) -/

/-- The regex class `[\s._-]` used for the word-boundary bonus. -/
def isSeparatorChar (c : Char) : Bool :=
  isJsWhitespace c || c = '.' || c = '_' || c = '-'

/-- Embeds `text.indexOf(c, start)`: first position `≥ start` holding `c`. -/
def indexOfFrom (text : List Char) (c : Char) (start : Nat) : Option Nat :=
  match (text.drop start).findIdx? (· == c) with
  | some i => some (start + i)
  | none => none

/-- Embeds `Math.min(30, Math.round((query.length / text.length) * 20))`, the
substring length bonus, with `Math.round` modelled exactly over rationals:
`round(20*q/t) = (40*q + t) / (2*t)` in floor division. -/
def lengthBonus (qlen tlen : Nat) : Nat :=
  min 30 ((40 * qlen + tlen) / (2 * tlen))

/-- Does `text` contain `pat` as a contiguous substring (`String.includes`)? -/
def containsSub (pat : List Char) : List Char → Bool
  | [] => pat.isPrefixOf []
  | c :: rest => pat.isPrefixOf (c :: rest) || containsSub pat rest

/-- The subsequence-scan loop of `fuzzyScore`. `start` is `lastIndex + 1`
(initially 0, since `lastIndex` starts at -1); a character that cannot be
found makes the whole call return 0. -/
def fuzzyLoop (text : List Char) : List Char → Nat → Nat → Nat → Nat
  | [], _, _, score => score
  | c :: rest, start, consecutive, score =>
    match indexOfFrom text c start with
    | none => 0
    | some nextIndex =>
      let p : Nat × Nat :=
        if nextIndex = start then (consecutive + 1, score + 5 + (consecutive + 1))
        else (0, score + 2)
      let bonus : Nat :=
        if nextIndex = 0 then 3
        else
          match text.get? (nextIndex - 1) with
          | some prev => if isSeparatorChar prev then 3 else 0
          | none => 0
      fuzzyLoop text rest (nextIndex + 1) p.1 (p.2 + bonus)

/-- Embeds `fuzzyScore(query, text)` from `useNotesSearch.ts` lines 43-68. -/
def fuzzyScore (query text : String) : Nat :=
  let q := query.data
  let t := text.data
  if q.isEmpty || t.isEmpty then 0
  else if containsSub q t then 100 + lengthBonus q.length t.length
  else fuzzyLoop t q 0 0 0

/-! ### Document model (`notesDb.ts` 16-51) -/

structure NoteDocument where
  id : Int
  version : Int
  title : String
  createdAt : Int
  content : Option (List Block)
  tags : List String

structure ExportedUpload where
  id : String
  name : String
  type : String
  size : Int
  createdAt : Int
  dataUrl : String

structure ExportedNotesPayload where
  version : Int
  exportedAt : Int
  documents : List NoteDocument
  uploads : List ExportedUpload

/-! ### Document scoring (`useNotesSearch.ts` 70-94) -/

def titleText (doc : NoteDocument) : String := normalizeSearchText doc.title

def tagsText (doc : NoteDocument) : String :=
  normalizeSearchText (joinWith " " doc.tags)

def contentText (doc : NoteDocument) : String :=
  normalizeSearchText (extractTextFromBlocks doc.content)

/-- The `fields` array of `scoreDocument`: text with its weight. -/
def searchFields (doc : NoteDocument) : List (String × Nat) :=
  [(titleText doc, 3), (tagsText doc, 2), (contentText doc, 1)]

/-- The inner loop of `scoreDocument`: best weighted field score for one token. -/
def bestTokenScore (fields : List (String × Nat)) (token : String) : Nat :=
  fields.foldl
    (fun best f =>
      let fieldScore := fuzzyScore token f.1
      if 0 < fieldScore then max best (fieldScore * f.2) else best)
    0

/-- The outer loop of `scoreDocument`: a token whose best score is 0 makes the
whole call return 0 (AND semantics), otherwise best scores accumulate. -/
def scoreLoop (fields : List (String × Nat)) : List String → Nat → Nat
  | [], score => score
  | tok :: rest, score =>
    let best := bestTokenScore fields tok
    if best = 0 then 0 else scoreLoop fields rest (score + best)

def scoreDocument (doc : NoteDocument) (tokens : List String) : Nat :=
  if tokens = [] then 0
  else scoreLoop (searchFields doc) tokens 0

/-! ### The search pipeline (`useNotesSearch.ts` 96-151) -/

/-- The comparator of the ranked sort (lines 133-139) as a `Bool` "comes no
later than" relation: higher score first, then newer `createdAt` first. -/
def rankLe (a b : NoteDocument × Nat) : Bool :=
  decide (b.2 < a.2) || (decide (a.2 = b.2) && decide (b.1.createdAt ≤ a.1.createdAt))

/-- The comparator `(a, b) => b.createdAt - a.createdAt` (newest first). -/
def createdLe (a b : NoteDocument) : Bool :=
  decide (b.createdAt ≤ a.createdAt)

/-- Lines 130-140: score every document, keep positive scores, sort by the
rank comparator, project the documents back out. -/
def rankDocuments (documents : List NoteDocument) (tokens : List String) :
    List NoteDocument :=
  ((((documents.map (fun d => (d, scoreDocument d tokens))).filter
        (fun e => decide (0 < e.2))).mergeSort rankLe).map (fun e => e.1))

/-- Lines 99-104: `/^tag:\s*(.*)$/i.exec(searchQuery.trim())`, then
`normalizeTag` on the capture. The regex matches iff, after the
case-insensitive `tag:` head and the maximal whitespace run, no line
terminator remains (`.` cannot match one); the capture is what follows that
whitespace run. -/
def tagSearchQuery (searchQuery : String) : Option String :=
  let trimmed := jsTrimList searchQuery.data
  if (trimmed.take 4).map Char.toLower = ['t', 'a', 'g', ':'] then
    let body := (trimmed.drop 4).dropWhile isJsWhitespace
    if body.any isLineTerminator then none
    else some (normalizeTag ⟨body⟩)
  else none

/-- Lines 106-111: free-text tokens of the query (empty in tag mode, which
`filteredDocuments` checks first). -/
def searchTokens (searchQuery : String) : List String :=
  let normalized := normalizeSearchText searchQuery
  if normalized = "" then []
  else (splitSpace normalized.data).filter (fun s => !s.isEmpty)

/-- Lines 113-141: the `filteredDocuments` memo of `useNotesSearch`, as a pure
function of the document list and the query string. -/
def filteredDocuments (documents : List NoteDocument) (searchQuery : String) :
    List NoteDocument :=
  match tagSearchQuery searchQuery with
  | some tq =>
    if tq = "" then []
    else
      (documents.filter
        (fun d => d.tags.any (fun tag => tagKey tag == tagKey tq))).mergeSort createdLe
  | none =>
    let tokens := searchTokens searchQuery
    if tokens = [] then documents.mergeSort createdLe
    else rankDocuments documents tokens

/-! ### Symbolic crypto (`crypto.ts`)

`deriveKey` (PBKDF2-SHA256, 250000 iterations) is deterministic in
`(password, salt)`; the symbolic model identifies the key with that pair,
idealizing away hash collisions. An AES-GCM ciphertext is modelled as the
triple (key, nonce, plaintext); `crypto.subtle.decrypt` succeeds exactly when
the re-derived key and the record's nonce match the ones the ciphertext was
built with, which is the AEAD authentication check. The JSON serialization
step is carried inside the ciphertext as the payload value itself. Salts and
nonces produced by `crypto.getRandomValues` enter as explicit arguments. -/

inductive VaultError where
  | locked
  | vaultEmpty
  | authentication
  | io
deriving DecidableEq

structure DerivedKey where
  password : String
  salt : Nat
deriving DecidableEq

structure AeadCiphertext where
  key : DerivedKey
  iv : Nat
  data : ExportedNotesPayload

structure EncryptedVaultRecord where
  version : Int
  salt : Nat
  iv : Nat
  ciphertext : AeadCiphertext

def deriveKey (password : String) (salt : Nat) : DerivedKey :=
  ⟨password, salt⟩

/-- Embeds `crypto.ts` 53-72: fresh salt and nonce, derive the key, encrypt the
serialized payload, return the record. -/
def encryptPayload (password : String) (salt iv : Nat)
    (payload : ExportedNotesPayload) : EncryptedVaultRecord :=
  { version := 1
    salt := salt
    iv := iv
    ciphertext := { key := deriveKey password salt, iv := iv, data := payload } }

/-- Embeds `crypto.ts` 74-89: re-derive the key from the stored salt and decrypt with
the stored nonce; an authentication failure is the wrong-password signal. -/
def decryptPayload (password : String) (record : EncryptedVaultRecord) :
    Except VaultError ExportedNotesPayload :=
  let key := deriveKey password record.salt
  if record.ciphertext.key = key ∧ record.ciphertext.iv = record.iv then
    .ok record.ciphertext.data
  else
    .error .authentication

/-! ### The vault store (`notesDb.ts`)

The module state and the durable stores form one `World`:
`vaultRecord` is the IndexedDB vault store (key `"payload"`), `notesStore` and
`uploadsStore` are the legacy plaintext stores (documents keyed by integer
ids), `sessionPassword` and `cachedVault` are the module-level session
variables. `persistOk` and `clearOk` inject the possible IndexedDB transaction
failures of `writeVaultRecord` and `clearPlaintextStores`. A legacy upload's
`Blob` and its data-URL serialization are both modelled by the same string.
Every operation returns its result (or thrown error) together with the world
after the call; state mutated before a throw stays mutated, as in the source. -/

structure StoredDocument where
  version : Int
  title : String
  createdAt : Int
  content : Option (List Block)
  tags : List String

structure StoredUpload where
  id : String
  name : String
  type : String
  size : Int
  createdAt : Int
  data : String

structure World where
  vaultRecord : Option EncryptedVaultRecord
  notesStore : List (Int × StoredDocument)
  uploadsStore : List StoredUpload
  sessionPassword : Option String
  cachedVault : Option ExportedNotesPayload
  persistOk : Bool
  clearOk : Bool

/-- Embeds `requireUnlocked` (lines 79-83): `!sessionPassword || !cachedVault`; note
that the empty string is falsy, so an empty session password counts as locked. -/
def isUnlocked (w : World) : Bool :=
  match w.sessionPassword, w.cachedVault with
  | some pw, some _ => decide (pw ≠ "")
  | _, _ => false

def createEmptyPayload (now : Int) : ExportedNotesPayload :=
  { version := 1, exportedAt := now, documents := [], uploads := [] }

/-- Embeds `readVaultRecord` (lines 92-104): read-only. -/
def readVaultRecord (w : World) : Option EncryptedVaultRecord :=
  w.vaultRecord

/-- Embeds `writeVaultRecord` (lines 106-115), with the transaction failure injected
by `persistOk`. -/
def writeVaultRecord (record : EncryptedVaultRecord) (w : World) :
    Except VaultError Unit × World :=
  if w.persistOk then (.ok (), { w with vaultRecord := some record })
  else (.error .io, w)

/-- Embeds `clearPlaintextStores` (lines 117-131), with the transaction failure
injected by `clearOk` (a failed transaction aborts, leaving the stores as they
were). -/
def clearPlaintextStores (w : World) : Except VaultError Unit × World :=
  if w.clearOk then (.ok (), { w with notesStore := [], uploadsStore := [] })
  else (.error .io, w)

/-- Embeds `getEncryptedVaultRecord` (lines 133-139): throws `Error("Vault is
empty.")` when no record was ever persisted. -/
def getEncryptedVaultRecord (w : World) : Except VaultError EncryptedVaultRecord :=
  match readVaultRecord w with
  | none => .error .vaultEmpty
  | some record => .ok record

/-- Embeds `readPlaintextPayload` (lines 171-221): legacy documents get their store
key as `id`, legacy uploads are serialized to data URLs. -/
def readPlaintextPayload (w : World) (now : Int) : ExportedNotesPayload :=
  { version := 1
    exportedAt := now
    documents := w.notesStore.map (fun kv =>
      { id := kv.1
        version := kv.2.version
        title := kv.2.title
        createdAt := kv.2.createdAt
        content := kv.2.content
        tags := kv.2.tags })
    uploads := w.uploadsStore.map (fun u =>
      { id := u.id, name := u.name, type := u.type, size := u.size
        createdAt := u.createdAt, dataUrl := u.data }) }

/-- Embeds `persistVault` (lines 223-232): require an unlocked session, stamp
`exportedAt`, cache the stamped payload (before the write, as in the source),
re-encrypt and write. -/
def persistVault (now : Int) (salt iv : Nat) (w : World) :
    Except VaultError Unit × World :=
  match w.sessionPassword, w.cachedVault with
  | some pw, some v =>
    if pw = "" then (.error .locked, w)
    else
      let payload := { v with exportedAt := now }
      let w1 := { w with cachedVault := some payload }
      writeVaultRecord (encryptPayload pw salt iv payload) w1
  | _, _ => (.error .locked, w)

/-- The payload chosen by the first-run migration branch of `initializeVault`:
the legacy plaintext payload if it holds anything, an empty payload otherwise. -/
def migrationPayload (w : World) (now : Int) : ExportedNotesPayload :=
  if 0 < (readPlaintextPayload w now).documents.length ∨
      0 < (readPlaintextPayload w now).uploads.length then
    readPlaintextPayload w now
  else createEmptyPayload now

/-- Embeds `initializeVault` (lines 234-259). `now` stands for the `Date.now()` calls
of the run; `salt`/`iv` are the random values drawn by the persist step. -/
def initializeVault (password : String) (now : Int) (salt iv : Nat) (w : World) :
    Except VaultError ExportedNotesPayload × World :=
  let w0 := { w with sessionPassword := some password }
  match readVaultRecord w0 with
  | some existing =>
    match decryptPayload password existing with
    | .ok decrypted => (.ok decrypted, { w0 with cachedVault := some decrypted })
    | .error e => (.error e, { w0 with sessionPassword := none, cachedVault := none })
  | none =>
    let initial := migrationPayload w0 now
    let w1 := { w0 with cachedVault := some initial }
    match persistVault now salt iv w1 with
    | (.error e, w2) => (.error e, w2)
    | (.ok _, w2) =>
      match clearPlaintextStores w2 with
      | (.error e, w3) => (.error e, w3)
      | (.ok _, w3) => (.ok (w3.cachedVault.getD initial), w3)

/-- Embeds `restoreEncryptedVault` (lines 261-271): decrypt first; only on success
replace the session state, persist the supplied record and clear the legacy
stores. -/
def restoreEncryptedVault (password : String) (record : EncryptedVaultRecord)
    (w : World) : Except VaultError ExportedNotesPayload × World :=
  match decryptPayload password record with
  | .error e => (.error e, w)
  | .ok decrypted =>
    let w1 := { w with sessionPassword := some password, cachedVault := some decrypted }
    match writeVaultRecord record w1 with
    | (.error e, w2) => (.error e, w2)
    | (.ok _, w2) =>
      match clearPlaintextStores w2 with
      | (.error e, w3) => (.error e, w3)
      | (.ok _, w3) => (.ok decrypted, w3)

/-- The id `addDocument` assigns:
`documents.reduce((max, doc) => Math.max(max, doc.id), 0) + 1`. -/
def nextDocumentId (v : ExportedNotesPayload) : Int :=
  v.documents.foldl (fun m d => max m d.id) 0 + 1

/-- Embeds `addDocument` (lines 278-297). -/
def addDocument (now : Int) (salt iv : Nat) (w : World) :
    Except VaultError NoteDocument × World :=
  match w.sessionPassword, w.cachedVault with
  | some pw, some v =>
    if pw = "" then (.error .locked, w)
    else
      let doc : NoteDocument :=
        { id := nextDocumentId v
          version := 1
          title := "Untitled"
          createdAt := now
          content := none
          tags := [] }
      let w1 := { w with cachedVault := some { v with documents := doc :: v.documents } }
      match persistVault now salt iv w1 with
      | (.error e, w2) => (.error e, w2)
      | (.ok _, w2) => (.ok doc, w2)
  | _, _ => (.error .locked, w)

/-- The per-element update of `updateDocument`: all mutable fields of a
matching document are replaced, its `id` is kept by the object spread. -/
def replaceFields (stored : NoteDocument) (doc : NoteDocument) : NoteDocument :=
  { stored with
    version := doc.version
    title := doc.title
    createdAt := doc.createdAt
    content := doc.content
    tags := doc.tags }

/-- Embeds `updateDocument` (lines 299-320). -/
def updateDocument (id : Int) (doc : NoteDocument) (now : Int) (salt iv : Nat)
    (w : World) : Except VaultError Unit × World :=
  match w.sessionPassword, w.cachedVault with
  | some pw, some v =>
    if pw = "" then (.error .locked, w)
    else
      let docs := v.documents.map (fun stored =>
        if stored.id = id then replaceFields stored doc else stored)
      let w1 := { w with cachedVault := some { v with documents := docs } }
      persistVault now salt iv w1
  | _, _ => (.error .locked, w)

/-! ### Concrete data for the closed instances below -/

def payload0 : ExportedNotesPayload := createEmptyPayload 0

def record0 : EncryptedVaultRecord := encryptPayload "alpha" 3 4 payload0

def world0 : World :=
  { vaultRecord := some record0, notesStore := [], uploadsStore := [],
    sessionPassword := none, cachedVault := none, persistOk := true, clearOk := true }

def emptyWorld : World :=
  { vaultRecord := none, notesStore := [], uploadsStore := [],
    sessionPassword := none, cachedVault := none, persistOk := true, clearOk := true }

def legacyDoc : StoredDocument :=
  { version := 1, title := "Grocery List", createdAt := 100, content := none,
    tags := ["home"] }

def legacyWorld : World :=
  { vaultRecord := none, notesStore := [(1, legacyDoc)], uploadsStore := [],
    sessionPassword := none, cachedVault := none, persistOk := false, clearOk := true }

def docHome : NoteDocument :=
  { id := 1, version := 1, title := "Grocery List", createdAt := 100,
    content := none, tags := ["home"] }

def docWork : NoteDocument :=
  { id := 2, version := 1, title := "Project Plan", createdAt := 200,
    content := none, tags := ["Work"] }

def sampleDocuments : List NoteDocument := [docHome, docWork]

def vault1 : ExportedNotesPayload :=
  { version := 1, exportedAt := 50, documents := [docHome, docWork], uploads := [] }

def unlockedWorld : World :=
  { vaultRecord := none, notesStore := [], uploadsStore := [],
    sessionPassword := some "pw", cachedVault := some vault1,
    persistOk := true, clearOk := true }

def replacementDoc : NoteDocument :=
  { id := 99, version := 2, title := "Renamed", createdAt := 300,
    content := none, tags := ["x"] }

/-! ## Theorems -/

/-- C1: encrypt/decrypt round-trip — for every vault payload `P`, password
`W` (and every salt/nonce drawn by the encryption), decrypting what was
encrypted under the same password returns exactly `P`. -/
theorem encrypt_decrypt_roundtrip (password : String) (salt iv : Nat)
    (payload : ExportedNotesPayload) :
    decryptPayload password (encryptPayload password salt iv payload) =
      .ok payload := by
  simp [decryptPayload, encryptPayload]

/-- C3: if decrypting the supplied record fails, `restoreEncryptedVault`
propagates the error and the entire previous state — persisted record,
session password, cached payload, legacy stores — is returned unchanged. -/
theorem restore_auth_failure_preserves_state (password : String)
    (record : EncryptedVaultRecord) (w : World) (e : VaultError)
    (h : decryptPayload password record = .error e) :
    restoreEncryptedVault password record w = (.error e, w) := by
  simp [restoreEncryptedVault, h]

/-- Closed instance of `restore_auth_failure_preserves_state`: restoring
`record0` (encrypted under "alpha") with password "beta" fails with an
authentication error and leaves `world0` untouched. -/
theorem restore_auth_failure_preserves_state_witness :
    decryptPayload "beta" record0 = .error .authentication ∧
    restoreEncryptedVault "beta" record0 world0 = (.error .authentication, world0) :=
  ⟨rfl, restore_auth_failure_preserves_state "beta" record0 world0 .authentication rfl⟩

/-- C5: `initializeVault` with an existing persisted record — on decryption
failure the error propagates, both session variables are absent afterwards,
and the vault is locked. -/
theorem initializeVault_auth_failure_locked (password : String) (now : Int)
    (salt iv : Nat) (w : World) (record : EncryptedVaultRecord) (e : VaultError)
    (hrec : w.vaultRecord = some record)
    (hdec : decryptPayload password record = .error e) :
    initializeVault password now salt iv w =
      (.error e, { w with sessionPassword := none, cachedVault := none }) ∧
    isUnlocked (initializeVault password now salt iv w).2 = false := by
  have hrec' : readVaultRecord { w with sessionPassword := some password } =
      some record := hrec
  refine ⟨?_, ?_⟩ <;> simp [initializeVault, hrec', hdec, isUnlocked]

/-- Closed instance of `initializeVault_auth_failure_locked` at `world0`
(which holds `record0`, encrypted under "alpha") and password "beta". -/
theorem initializeVault_auth_failure_locked_witness :
    initializeVault "beta" 7 1 2 world0 =
      (.error .authentication,
       { world0 with sessionPassword := none, cachedVault := none }) ∧
    isUnlocked (initializeVault "beta" 7 1 2 world0).2 = false :=
  initializeVault_auth_failure_locked "beta" 7 1 2 world0 record0 .authentication rfl rfl

/-- C4, counterexample: with no persisted record, the export entry point
fails with the vault-empty error ("Vault is empty."), which is distinct from
the locked error ("Vault is locked.") the claim names. -/
theorem getEncryptedVaultRecord_empty_not_locked :
    getEncryptedVaultRecord emptyWorld = .error .vaultEmpty ∧
    getEncryptedVaultRecord emptyWorld ≠ .error .locked := by
  refine ⟨rfl, ?_⟩
  simp [getEncryptedVaultRecord, readVaultRecord, emptyWorld]

/-- C4, amended: `getEncryptedVaultRecord` returns the persisted record
unchanged whenever one exists, and fails with the vault-empty error (not the
locked error) when no record has ever been persisted. -/
theorem getEncryptedVaultRecord_spec (w : World) :
    (∀ record, w.vaultRecord = some record →
       getEncryptedVaultRecord w = .ok record) ∧
    (w.vaultRecord = none → getEncryptedVaultRecord w = .error .vaultEmpty) := by
  refine ⟨fun record h => ?_, fun h => ?_⟩ <;>
    simp [getEncryptedVaultRecord, readVaultRecord, h]

/-- Closed instance of `getEncryptedVaultRecord_spec`: the stored record is
returned bit-identically, and the empty world yields the vault-empty error. -/
theorem getEncryptedVaultRecord_spec_witness :
    getEncryptedVaultRecord world0 = .ok record0 ∧
    getEncryptedVaultRecord emptyWorld = .error .vaultEmpty :=
  ⟨(getEncryptedVaultRecord_spec world0).1 record0 rfl,
   (getEncryptedVaultRecord_spec emptyWorld).2 rfl⟩

/-- Stamping the migration payload with the same `now` is the identity: both
of its branches already carry `exportedAt = now`. -/
theorem migrationPayload_stamp (w : World) (now : Int) :
    { migrationPayload w now with exportedAt := now } = migrationPayload w now := by
  unfold migrationPayload
  split <;> rfl

/-- The migration payload only reads the legacy plaintext stores. -/
theorem migrationPayload_congr (w w' : World) (now : Int)
    (hn : w'.notesStore = w.notesStore) (hu : w'.uploadsStore = w.uploadsStore) :
    migrationPayload w' now = migrationPayload w now := by
  unfold migrationPayload readPlaintextPayload
  rw [hn, hu]

/-- C2: first-run migration ordering. With no persisted record, every
execution of `initializeVault` that ends in an error leaves both legacy
plaintext stores exactly as they were; and whenever a legacy store did
change, the freshly encrypted migrated payload is already persisted —
persist happens before clear, never the reverse. -/
theorem initializeVault_migration_ordering (password : String) (now : Int)
    (salt iv : Nat) (w : World) (hrec : w.vaultRecord = none) :
    (∀ e, (initializeVault password now salt iv w).1 = .error e →
        (initializeVault password now salt iv w).2.notesStore = w.notesStore ∧
        (initializeVault password now salt iv w).2.uploadsStore = w.uploadsStore) ∧
    ((initializeVault password now salt iv w).2.notesStore ≠ w.notesStore ∨
        (initializeVault password now salt iv w).2.uploadsStore ≠ w.uploadsStore →
      (initializeVault password now salt iv w).2.vaultRecord =
        some (encryptPayload password salt iv (migrationPayload w now))) := by
  by_cases hpw : password = ""
  · simp [initializeVault, readVaultRecord, hrec, persistVault, hpw]
  · by_cases hpersist : w.persistOk = true
    · by_cases hclear : w.clearOk = true
      · have hmp := migrationPayload_congr w
          { w with
            vaultRecord := none
            sessionPassword := some password
            persistOk := true
            clearOk := true } now rfl rfl
        simp [initializeVault, readVaultRecord, hrec, persistVault, hpw,
          writeVaultRecord, clearPlaintextStores, hpersist, hclear,
          migrationPayload_stamp, hmp]
      · simp only [Bool.not_eq_true] at hclear
        simp [initializeVault, readVaultRecord, hrec, persistVault, hpw,
          writeVaultRecord, clearPlaintextStores, hpersist, hclear]
    · simp only [Bool.not_eq_true] at hpersist
      simp [initializeVault, readVaultRecord, hrec, persistVault, hpw,
        writeVaultRecord, hpersist]

/-- Closed instance of `initializeVault_migration_ordering`: in `legacyWorld`
(one legacy document, failing persist) the migration errors out and the
legacy stores are intact. -/
theorem initializeVault_migration_ordering_witness :
    legacyWorld.vaultRecord = none ∧
    (initializeVault "pw" 7 1 2 legacyWorld).1 = .error .io ∧
    (initializeVault "pw" 7 1 2 legacyWorld).2.notesStore = legacyWorld.notesStore ∧
    (initializeVault "pw" 7 1 2 legacyWorld).2.uploadsStore = legacyWorld.uploadsStore := by
  refine ⟨rfl, rfl, ?_⟩
  exact (initializeVault_migration_ordering "pw" 7 1 2 legacyWorld rfl).1 .io rfl

/-- The fold computing `addDocument`'s next id bounds the accumulator and
every document id in the list. -/
theorem le_foldl_max (docs : List NoteDocument) (acc : Int) :
    acc ≤ docs.foldl (fun m d => max m d.id) acc ∧
    ∀ d ∈ docs, d.id ≤ docs.foldl (fun m d => max m d.id) acc := by
  induction docs generalizing acc with
  | nil => simp
  | cons a as ih =>
    simp only [List.foldl_cons]
    refine ⟨le_trans (le_max_left acc a.id) (ih (max acc a.id)).1, ?_⟩
    intro d hd
    rcases List.mem_cons.mp hd with rfl | hmem
    · exact le_trans (le_max_right acc d.id) (ih (max acc d.id)).1
    · exact (ih (max acc a.id)).2 d hmem

/-- C8: with an unlocked session (and a persist that goes through),
`addDocument` returns a document with id `max(existing ids, 0) + 1`, title
"Untitled", empty tags and no content; that id is absent from the pre-call
document set and present in the post-call one. -/
theorem addDocument_spec (w : World) (pw : String) (v : ExportedNotesPayload)
    (now : Int) (salt iv : Nat)
    (hpw : w.sessionPassword = some pw) (hpw0 : pw ≠ "")
    (hv : w.cachedVault = some v) (hok : w.persistOk = true) :
    (addDocument now salt iv w).1 =
      .ok { id := nextDocumentId v, version := 1, title := "Untitled",
            createdAt := now, content := none, tags := [] } ∧
    nextDocumentId v ∉ v.documents.map NoteDocument.id ∧
    (addDocument now salt iv w).2.cachedVault =
      some { v with
             exportedAt := now,
             documents :=
               { id := nextDocumentId v, version := 1, title := "Untitled",
                 createdAt := now, content := none, tags := [] } :: v.documents } ∧
    nextDocumentId v ∈
      ((addDocument now salt iv w).2.cachedVault.elim []
        (fun p => p.documents.map NoteDocument.id)) := by
  have habs : nextDocumentId v ∉ v.documents.map NoteDocument.id := by
    intro hmem
    obtain ⟨d, hd, hdid⟩ := List.mem_map.mp hmem
    have hle := (le_foldl_max v.documents 0).2 d hd
    unfold nextDocumentId at hdid
    omega
  refine ⟨?_, habs, ?_, ?_⟩ <;>
    simp [addDocument, hpw, hv, hpw0, persistVault, writeVaultRecord, hok]

/-- Closed instance of `addDocument_spec` at `unlockedWorld` (ids 1 and 2
present): the new document gets id 3, absent before and present after. -/
theorem addDocument_spec_witness :
    (addDocument 500 1 2 unlockedWorld).1 =
      .ok { id := 3, version := 1, title := "Untitled", createdAt := 500,
            content := none, tags := [] } ∧
    (3 : Int) ∉ vault1.documents.map NoteDocument.id ∧
    (3 : Int) ∈
      ((addDocument 500 1 2 unlockedWorld).2.cachedVault.elim []
        (fun p => p.documents.map NoteDocument.id)) := by
  have h := addDocument_spec unlockedWorld "pw" vault1 500 1 2 rfl (by decide) rfl rfl
  exact ⟨h.1, h.2.1, h.2.2.2⟩

/-- C9: with an unlocked session, `updateDocument` succeeds, replaces all
mutable fields of every document whose id matches (keeping its position) and
leaves every other document unchanged; when no document has the id, the
document list is exactly unchanged. -/
theorem updateDocument_spec (w : World) (pw : String) (v : ExportedNotesPayload)
    (id : Int) (doc : NoteDocument) (now : Int) (salt iv : Nat)
    (hpw : w.sessionPassword = some pw) (hpw0 : pw ≠ "")
    (hv : w.cachedVault = some v) (hok : w.persistOk = true) :
    (updateDocument id doc now salt iv w).1 = .ok () ∧
    (updateDocument id doc now salt iv w).2.cachedVault =
      some { v with
             exportedAt := now,
             documents := v.documents.map (fun stored =>
               if stored.id = id then replaceFields stored doc else stored) } ∧
    (v.documents.map (fun stored =>
        if stored.id = id then replaceFields stored doc else stored)).length =
      v.documents.length ∧
    (∀ i, (hi : i < v.documents.length) →
      (hi' : i < (v.documents.map (fun stored =>
          if stored.id = id then replaceFields stored doc else stored)).length) →
      (v.documents.map (fun stored =>
          if stored.id = id then replaceFields stored doc else stored))[i] =
        if v.documents[i].id = id then replaceFields v.documents[i] doc
        else v.documents[i]) ∧
    ((∀ s ∈ v.documents, s.id ≠ id) →
      v.documents.map (fun stored =>
        if stored.id = id then replaceFields stored doc else stored) =
        v.documents) := by
  refine ⟨?_, ?_, by simp, ?_, ?_⟩
  · simp [updateDocument, hpw, hv, hpw0, persistVault, writeVaultRecord, hok]
  · simp [updateDocument, hpw, hv, hpw0, persistVault, writeVaultRecord, hok]
  · intro i hi hi'
    simp [List.getElem_map]
  · intro hnone
    have hfix : ∀ s ∈ v.documents,
        (if s.id = id then replaceFields s doc else s) = s :=
      fun s hs => if_neg (hnone s hs)
    calc v.documents.map (fun stored =>
            if stored.id = id then replaceFields stored doc else stored)
        = v.documents.map (fun stored => stored) := List.map_congr_left hfix
      _ = v.documents := List.map_id' v.documents

/-- Closed instance of `updateDocument_spec`: updating id 2 in
`unlockedWorld` succeeds and rewrites exactly the matching document, while
updating the absent id 5 leaves the document list unchanged. -/
theorem updateDocument_spec_witness :
    (updateDocument 2 replacementDoc 500 1 2 unlockedWorld).1 = .ok () ∧
    (updateDocument 2 replacementDoc 500 1 2 unlockedWorld).2.cachedVault =
      some { vault1 with
             exportedAt := 500,
             documents := vault1.documents.map (fun stored =>
               if stored.id = 2 then replaceFields stored replacementDoc
               else stored) } ∧
    vault1.documents.map (fun stored =>
        if stored.id = 5 then replaceFields stored replacementDoc else stored) =
      vault1.documents := by
  have h2 := updateDocument_spec unlockedWorld "pw" vault1 2 replacementDoc
    500 1 2 rfl (by decide) rfl rfl
  have h5 := updateDocument_spec unlockedWorld "pw" vault1 5 replacementDoc
    500 1 2 rfl (by decide) rfl rfl
  exact ⟨h2.1, h2.2.1, h5.2.2.2.2 (by decide)⟩

/-- C10: `updateDocument` never changes the list of document ids — even when
the replacement document carries a different id than the targeted one, the
stored document keeps its original id. -/
theorem updateDocument_preserves_ids (w : World) (pw : String)
    (v : ExportedNotesPayload) (id : Int) (doc : NoteDocument) (now : Int)
    (salt iv : Nat)
    (hpw : w.sessionPassword = some pw) (hpw0 : pw ≠ "")
    (hv : w.cachedVault = some v) (hok : w.persistOk = true) :
    ∃ v', (updateDocument id doc now salt iv w).2.cachedVault = some v' ∧
      v'.documents.map NoteDocument.id = v.documents.map NoteDocument.id := by
  refine ⟨{ v with
            exportedAt := now,
            documents := v.documents.map (fun stored =>
              if stored.id = id then replaceFields stored doc else stored) },
          ?_, ?_⟩
  · simp [updateDocument, hpw, hv, hpw0, persistVault, writeVaultRecord, hok]
  · rw [List.map_map]
    refine List.map_congr_left ?_
    intro s _
    by_cases h : s.id = id <;> simp [replaceFields, h, Function.comp]

/-- Closed instance of `updateDocument_preserves_ids`: updating id 1 with a
replacement document whose own id is 99 keeps the id list `[1, 2]`. -/
theorem updateDocument_preserves_ids_witness :
    replacementDoc.id ≠ 1 ∧
    ∃ v', (updateDocument 1 replacementDoc 500 1 2 unlockedWorld).2.cachedVault =
        some v' ∧
      v'.documents.map NoteDocument.id = [(1 : Int), 2] := by
  obtain ⟨v', hv', hmap⟩ := updateDocument_preserves_ids unlockedWorld "pw"
    vault1 1 replacementDoc 500 1 2 rfl (by decide) rfl rfl
  exact ⟨by decide, v', hv', hmap⟩

/-! ### Search lemmas -/

theorem createdLe_trans (a b c : NoteDocument) :
    createdLe a b → createdLe b c → createdLe a c := by
  simp only [createdLe, decide_eq_true_eq]
  omega

theorem createdLe_total (a b : NoteDocument) : createdLe a b || createdLe b a := by
  simp only [createdLe, Bool.or_eq_true, decide_eq_true_eq]
  omega

theorem rankLe_trans (a b c : NoteDocument × Nat) :
    rankLe a b → rankLe b c → rankLe a c := by
  simp only [rankLe, Bool.or_eq_true, Bool.and_eq_true, decide_eq_true_eq]
  omega

theorem rankLe_total (a b : NoteDocument × Nat) : rankLe a b || rankLe b a := by
  simp only [rankLe, Bool.or_eq_true, Bool.and_eq_true, decide_eq_true_eq]
  omega

/-- The fold over the three weighted fields is the maximum of the three
weighted scores (a zero field score contributes a zero product, so the
skip-if-zero branch never changes the maximum). -/
theorem bestTokenScore_eq (doc : NoteDocument) (t : String) :
    bestTokenScore (searchFields doc) t =
      max (fuzzyScore t (titleText doc) * 3)
        (max (fuzzyScore t (tagsText doc) * 2)
          (fuzzyScore t (contentText doc) * 1)) := by
  simp only [bestTokenScore, searchFields, List.foldl_cons, List.foldl_nil]
  split_ifs <;> omega

theorem bestTokenScore_pos_iff (doc : NoteDocument) (t : String) :
    0 < bestTokenScore (searchFields doc) t ↔
      0 < fuzzyScore t (titleText doc) ∨ 0 < fuzzyScore t (tagsText doc) ∨
      0 < fuzzyScore t (contentText doc) := by
  rw [bestTokenScore_eq]
  omega

/-- When every token has a positive best score, the loop adds them all up. -/
theorem scoreLoop_pos (fields : List (String × Nat)) (tokens : List String)
    (h : ∀ t ∈ tokens, 0 < bestTokenScore fields t) :
    ∀ acc, scoreLoop fields tokens acc =
      acc + (tokens.map (bestTokenScore fields)).sum := by
  induction tokens with
  | nil => intro acc; simp [scoreLoop]
  | cons tok rest ih =>
    intro acc
    have hpos := h tok (List.mem_cons_self tok rest)
    simp only [scoreLoop, List.map_cons, List.sum_cons]
    rw [if_neg (by omega)]
    rw [ih (fun t ht => h t (List.mem_cons_of_mem _ ht)) (acc + bestTokenScore fields tok)]
    omega

/-- A token with best score zero zeroes the whole loop (AND semantics). -/
theorem scoreLoop_zero (fields : List (String × Nat)) (tokens : List String)
    (t0 : String) (h0 : bestTokenScore fields t0 = 0) :
    t0 ∈ tokens → ∀ acc, scoreLoop fields tokens acc = 0 := by
  induction tokens with
  | nil => intro ht; cases ht
  | cons tok rest ih =>
    intro ht acc
    simp only [scoreLoop]
    rcases List.mem_cons.mp ht with heq | hmem
    · rw [if_pos (heq ▸ h0)]
    · by_cases hb : bestTokenScore fields tok = 0
      · rw [if_pos hb]
      · rw [if_neg hb]
        exact ih hmem _

theorem scoreDocument_eq_loop (doc : NoteDocument) (tokens : List String)
    (h : tokens ≠ []) :
    scoreDocument doc tokens = scoreLoop (searchFields doc) tokens 0 := by
  simp [scoreDocument, h]

theorem scoreDocument_eq_sum (doc : NoteDocument) (tokens : List String)
    (h : tokens ≠ [])
    (hall : ∀ t ∈ tokens, 0 < bestTokenScore (searchFields doc) t) :
    scoreDocument doc tokens =
      (tokens.map (bestTokenScore (searchFields doc))).sum := by
  rw [scoreDocument_eq_loop doc tokens h, scoreLoop_pos _ _ hall 0]
  omega

theorem scoreDocument_pos_iff (doc : NoteDocument) (tokens : List String)
    (h : tokens ≠ []) :
    0 < scoreDocument doc tokens ↔
      ∀ t ∈ tokens, 0 < bestTokenScore (searchFields doc) t := by
  constructor
  · intro hpos t ht
    by_contra hnot
    have h0 : bestTokenScore (searchFields doc) t = 0 := by omega
    rw [scoreDocument_eq_loop doc tokens h,
      scoreLoop_zero (searchFields doc) tokens t h0 ht 0] at hpos
    exact absurd hpos (by omega)
  · intro hall
    rw [scoreDocument_eq_sum doc tokens h hall]
    cases tokens with
    | nil => cases h rfl
    | cons a as =>
      have := hall a (List.mem_cons_self a as)
      simp only [List.map_cons, List.sum_cons]
      omega

/-- A document appears in the ranked result iff it is in the input and its
total score is positive. -/
theorem mem_rankDocuments (docs : List NoteDocument) (tokens : List String)
    (d : NoteDocument) :
    d ∈ rankDocuments docs tokens ↔ d ∈ docs ∧ 0 < scoreDocument d tokens := by
  simp only [rankDocuments, List.mem_map, List.mem_mergeSort, List.mem_filter,
    decide_eq_true_eq]
  constructor
  · rintro ⟨e, ⟨⟨d', hd', rfl⟩, hpos⟩, rfl⟩
    exact ⟨hd', hpos⟩
  · rintro ⟨hd, hpos⟩
    exact ⟨(d, scoreDocument d tokens), ⟨⟨d, hd, rfl⟩, hpos⟩, rfl⟩

/-- Projecting the scored-and-filtered pairs back to documents is the same as
filtering the documents by positive score. -/
theorem filter_map_fst (docs : List NoteDocument) (tokens : List String) :
    ((docs.map (fun d => (d, scoreDocument d tokens))).filter
        (fun e => decide (0 < e.2))).map (fun e => e.1) =
      docs.filter (fun d => decide (0 < scoreDocument d tokens)) := by
  induction docs with
  | nil => rfl
  | cons a as ih =>
    by_cases h : 0 < scoreDocument a tokens <;>
      simp [List.filter_cons, h, ih]

theorem rankDocuments_sorted (docs : List NoteDocument) (tokens : List String) :
    (rankDocuments docs tokens).Pairwise (fun a b =>
      scoreDocument b tokens < scoreDocument a tokens ∨
      (scoreDocument a tokens = scoreDocument b tokens ∧
        b.createdAt ≤ a.createdAt)) := by
  have hs := List.sorted_mergeSort rankLe_trans rankLe_total
    ((docs.map (fun d => (d, scoreDocument d tokens))).filter
      (fun e => decide (0 < e.2)))
  unfold rankDocuments
  rw [List.pairwise_map]
  refine List.Pairwise.imp_of_mem ?_ hs
  intro a b ha hb hab
  obtain ⟨da, hda, rfl⟩ :=
    List.mem_map.mp (List.mem_filter.mp (List.mem_mergeSort.mp ha)).1
  obtain ⟨db, hdb, rfl⟩ :=
    List.mem_map.mp (List.mem_filter.mp (List.mem_mergeSort.mp hb)).1
  simpa [rankLe] using hab

theorem rankDocuments_perm (docs : List NoteDocument) (tokens : List String) :
    (rankDocuments docs tokens).Perm
      (docs.filter (fun d => decide (0 < scoreDocument d tokens))) := by
  unfold rankDocuments
  have h := (List.mergeSort_perm
    ((docs.map (fun d => (d, scoreDocument d tokens))).filter
      (fun e => decide (0 < e.2))) rankLe).map (fun e => e.1)
  rwa [filter_map_fst] at h

/-- C6: free-text search characterization. When the query is not in tag mode
and has tokens, a document is returned iff every token has a positive fuzzy
score on at least one of title/tags/content (AND across tokens, OR across
fields); each returned document's total score is the sum over tokens of the
best weighted field score (weights 3/2/1); the results are ordered by
descending total score with ties broken by `createdAt` descending, and are
exactly the positively-scoring documents. -/
theorem freeText_search_spec (documents : List NoteDocument) (q : String)
    (hq : tagSearchQuery q = none) (htok : searchTokens q ≠ []) :
    (∀ d, d ∈ filteredDocuments documents q ↔
        d ∈ documents ∧ ∀ t ∈ searchTokens q,
          (0 < fuzzyScore t (titleText d) ∨ 0 < fuzzyScore t (tagsText d) ∨
           0 < fuzzyScore t (contentText d))) ∧
    (∀ d ∈ filteredDocuments documents q,
        scoreDocument d (searchTokens q) =
          ((searchTokens q).map (fun t =>
              max (fuzzyScore t (titleText d) * 3)
                (max (fuzzyScore t (tagsText d) * 2)
                  (fuzzyScore t (contentText d) * 1)))).sum) ∧
    (filteredDocuments documents q).Pairwise (fun a b =>
        scoreDocument b (searchTokens q) < scoreDocument a (searchTokens q) ∨
        (scoreDocument a (searchTokens q) = scoreDocument b (searchTokens q) ∧
         b.createdAt ≤ a.createdAt)) ∧
    (filteredDocuments documents q).Perm
      (documents.filter (fun d =>
        decide (0 < scoreDocument d (searchTokens q)))) := by
  have hred : filteredDocuments documents q =
      rankDocuments documents (searchTokens q) := by
    simp [filteredDocuments, hq, htok]
  refine ⟨fun d => ?_, fun d hd => ?_, ?_, ?_⟩
  · rw [hred, mem_rankDocuments]
    constructor
    · rintro ⟨hd, hpos⟩
      exact ⟨hd, fun t ht => (bestTokenScore_pos_iff d t).mp
        ((scoreDocument_pos_iff d _ htok).mp hpos t ht)⟩
    · rintro ⟨hd, hflds⟩
      exact ⟨hd, (scoreDocument_pos_iff d _ htok).mpr
        (fun t ht => (bestTokenScore_pos_iff d t).mpr (hflds t ht))⟩
  · rw [hred] at hd
    have hpos := ((mem_rankDocuments documents (searchTokens q) d).mp hd).2
    have hall := (scoreDocument_pos_iff d _ htok).mp hpos
    rw [scoreDocument_eq_sum d _ htok hall]
    exact congrArg List.sum
      (List.map_congr_left (fun t _ => bestTokenScore_eq d t))
  · rw [hred]
    exact rankDocuments_sorted documents (searchTokens q)
  · rw [hred]
    exact rankDocuments_perm documents (searchTokens q)

/-- Closed instance of `freeText_search_spec` at the sample documents and the
two-token query "alpha beta" (no tag mode, two tokens): the membership
characterization holds there. -/
theorem freeText_search_spec_witness :
    tagSearchQuery "alpha beta" = none ∧
    searchTokens "alpha beta" ≠ [] ∧
    (∀ d, d ∈ filteredDocuments sampleDocuments "alpha beta" ↔
        d ∈ sampleDocuments ∧ ∀ t ∈ searchTokens "alpha beta",
          (0 < fuzzyScore t (titleText d) ∨ 0 < fuzzyScore t (tagsText d) ∨
           0 < fuzzyScore t (contentText d))) :=
  ⟨by decide, by decide,
   (freeText_search_spec sampleDocuments "alpha beta" (by decide) (by decide)).1⟩

/-- C7: tag-filter mode. Whenever the query parses as a tag query with
normalized remainder `t`, an empty `t` yields the empty result, and a
non-empty `t` yields exactly the documents one of whose tags has the same
case-insensitive whitespace-normalized key, sorted by `createdAt`
descending. -/
theorem tagFilter_search_spec (documents : List NoteDocument) (q t : String)
    (hq : tagSearchQuery q = some t) :
    (t = "" → filteredDocuments documents q = []) ∧
    (t ≠ "" →
      (∀ d, d ∈ filteredDocuments documents q ↔
          d ∈ documents ∧ ∃ tag ∈ d.tags, tagKey tag = tagKey t) ∧
      (filteredDocuments documents q).Pairwise
        (fun a b => b.createdAt ≤ a.createdAt) ∧
      (filteredDocuments documents q).Perm
        (documents.filter
          (fun d => d.tags.any (fun tag => tagKey tag == tagKey t)))) := by
  refine ⟨fun h0 => ?_, fun hne => ⟨fun d => ?_, ?_, ?_⟩⟩
  · simp [filteredDocuments, hq, h0]
  · simp [filteredDocuments, hq, hne, List.mem_mergeSort, List.mem_filter,
      List.any_eq_true, beq_iff_eq]
  · have hs := List.sorted_mergeSort createdLe_trans createdLe_total
      (documents.filter (fun d => d.tags.any (fun tag => tagKey tag == tagKey t)))
    have hred : filteredDocuments documents q =
        (documents.filter
          (fun d => d.tags.any (fun tag => tagKey tag == tagKey t))).mergeSort
            createdLe := by
      simp [filteredDocuments, hq, hne]
    rw [hred]
    exact hs.imp (fun hab => by simpa [createdLe] using hab)
  · have hred : filteredDocuments documents q =
        (documents.filter
          (fun d => d.tags.any (fun tag => tagKey tag == tagKey t))).mergeSort
            createdLe := by
      simp [filteredDocuments, hq, hne]
    rw [hred]
    exact List.mergeSort_perm _ createdLe

/-- Closed instance of `tagFilter_search_spec`: query "tag:work" parses to
tag "work"; against the sample documents (one tagged "Work", one tagged
"home") membership is exactly case-insensitive tag containment. -/
theorem tagFilter_search_spec_witness :
    tagSearchQuery "tag:work" = some "work" ∧
    (∀ d, d ∈ filteredDocuments sampleDocuments "tag:work" ↔
        d ∈ sampleDocuments ∧ ∃ tag ∈ d.tags, tagKey tag = tagKey "work") :=
  ⟨by decide,
   ((tagFilter_search_spec sampleDocuments "tag:work" "work" (by decide)).2
     (by decide)).1⟩

end Notes
